import Mathlib

/-!
Verification development for the Aware-Citizen repository (main.py).

The file shallowly embeds the pure logic of main.py: the score-extraction
regex of evaluate_parties, the scrape URL construction and anchor filtering
of scrape_party_info, the module-level API-key setup, the evaluation loop,
and the chart-rendering decision of main. Network and UI effects are
modelled by explicit inputs (fetched anchors, a text-generation oracle).
-/

/-! ## Score extraction (main.py lines 75-80)

Embedding of the Python fragment

  score_match = re.search(r"score.*?(\d{1,2})", content, re.IGNORECASE)
  if score_match:
      score = int(score_match.group(1))
      party_scores[party] = min(max(score, 0), 20)
  else:
      party_scores[party] = None

Texts are lists of characters. Digits are the ASCII digits, matching the
behaviour of the regex on ASCII model output. The dot of the regex does not
match a newline character, and re.search returns the leftmost match, with
the lazy dot-star reaching the nearest digit run. -/

/-- True when the list starts with the five letters of "score", compared
case-insensitively as re.IGNORECASE does. -/
def startsWithScore : List Char → Bool
  | s :: c :: o :: r :: e :: _ =>
      s.toLower == 's' && c.toLower == 'c' && o.toLower == 'o' &&
        r.toLower == 'r' && e.toLower == 'e'
  | _ => false

/-- Numeric value of an ASCII digit character. -/
def digitVal (c : Char) : Nat := c.toNat - 48

/-- The number captured by the greedy group once the lazy dot-star has
stopped at digit c: two digits when a second digit follows, else one. -/
def matchedNumber (c : Char) (rest : List Char) : Nat :=
  match rest with
  | d :: _ => if d.isDigit then digitVal c * 10 + digitVal d else digitVal c
  | [] => digitVal c

/-- Lazy scan after the literal "score": skip characters (the regex dot,
which does not match a newline) until the first digit, and return the
captured 1-or-2-digit number; none when a newline or the end of the text
comes first. -/
def findDigitsNoNewline : List Char → Option Nat
  | [] => none
  | c :: rest =>
      if c.isDigit then some (matchedNumber c rest)
      else if c = '\n' then none
      else findDigitsNoNewline rest

/-- re.search over the whole text: try every start position from the left;
at a position where "score" matches, succeed if a digit is reachable on the
same line, otherwise move one character to the right. -/
def searchScore : List Char → Option Nat
  | [] => none
  | c :: rest =>
      if startsWithScore (c :: rest) then
        match findDigitsNoNewline (List.drop 4 rest) with
        | some n => some n
        | none => searchScore rest
      else searchScore rest

/-- The clamp applied by the source: min(max(score, 0), 20). -/
def clampScore (s : Int) : Int := min (max s 0) 20

/-- Score stored for one party: the clamped captured number when the regex
matches, none otherwise. -/
def extract_score (content : List Char) : Option Int :=
  match searchScore content with
  | some n => some (clampScore (n : Int))
  | none => none

/-- True when some suffix of the text starts with "score"
case-insensitively, i.e. the text contains the substring at all. -/
def containsScoreCI : List Char → Bool
  | [] => false
  | c :: rest => startsWithScore (c :: rest) || containsScoreCI rest

/-- Declarative match predicate with the dot restricted to non-newline
characters, as Python regexes behave without DOTALL: some occurrence of
"score" is followed by a digit with no intervening newline. -/
def hasDigitBeforeNewline (m : List Char) : Prop :=
  ∃ pre c suf, m = pre ++ c :: suf ∧ c.isDigit = true ∧ ∀ x ∈ pre, x ≠ '\n'

/-- A case-insensitive occurrence of "score" followed, with arbitrary
intervening non-newline characters, by a digit. -/
def scoreMatchNoNewline (l : List Char) : Prop :=
  ∃ pre suf, l = pre ++ suf ∧ startsWithScore suf = true ∧
    hasDigitBeforeNewline (List.drop 5 suf)

/-- Match predicate following the words of the specification: a
case-insensitive occurrence of "score" followed, with arbitrary intervening
characters of any kind, by a digit. -/
def scoreMatchArbitrary (l : List Char) : Prop :=
  ∃ pre suf, l = pre ++ suf ∧ startsWithScore suf = true ∧
    ∃ p2 c s2, List.drop 5 suf = p2 ++ c :: s2 ∧ c.isDigit = true

/-! ## Scrape URL construction (main.py lines 30-38) -/

/-- The fixed URL template of scrape_party_info. -/
def baseUrl : String := "https://en.wikipedia.org/wiki/List_of_political_parties_in_"

/-- The exception table country_map of scrape_party_info. -/
def country_map : List (String × String) :=
  [("United States", "the_United_States"),
   ("United Kingdom", "the_United_Kingdom"),
   ("Philippines", "the_Philippines")]

/-- The replace(space, underscore) call applied to the wiki country name. -/
def underscoreSpaces (s : String) : String :=
  String.mk (s.data.map (fun c => if c = ' ' then '_' else c))

/-- The URL built by scrape_party_info: remap via country_map with the
country itself as default, then substitute into the template with spaces
replaced by underscores. -/
def scrape_url (country : String) : String :=
  baseUrl ++ underscoreSpaces ((country_map.lookup country).getD country)

/-! ## Module-level API key setup (main.py lines 13-16)

The module prelude binds OPENAI_API_KEY from st.secrets, then rebinds it
from os.getenv. Python resolves each global name when the line runs, so the
outcome of the prelude depends on which module names the import statements
of lines 3-10 actually bound. -/

/-- Names bound at module level by the import statements of main.py
lines 3-10. -/
def importedNames : List String :=
  ["requests", "BeautifulSoup", "pd", "json", "st", "plt", "re", "OpenAI"]

/-- Outcome of running the module prelude. -/
inductive InitOutcome where
  | clientReady (apiKey : Option String)
  | nameError (missing : String)
  deriving DecidableEq

/-- The module prelude, line by line: line 14 reads the secrets store
through st, line 15 rebinds the key from os.getenv, line 16 builds the
client from the current key. A name that was never bound raises NameError
at the line that uses it. -/
def moduleInit (secretsKey : String) (env : String → Option String) : InitOutcome :=
  if importedNames.contains "st" then
    let _keyFromSecrets := secretsKey
    if importedNames.contains "os" then
      let key2 := env "OPENAI_API_KEY"
      InitOutcome.clientReady key2
    else InitOutcome.nameError "os"
  else InitOutcome.nameError "st"

/-! ## Anchor filtering of scrape_party_info (main.py lines 43-48)

The fetched page is modelled by its document-order list of anchor tags;
inListItem records whether soup.select with "ul li a" selects the anchor,
and title is its title attribute when present. -/

/-- An anchor tag of the fetched page. -/
structure Anchor where
  inListItem : Bool
  title : Option String
  deriving DecidableEq

/-- Generic substring test on character lists. -/
def isPre : List Char → List Char → Bool
  | [], _ => true
  | _ :: _, [] => false
  | a :: as, b :: bs => a == b && isPre as bs

/-- True when needle occurs as a contiguous substring of hay. -/
def containsSubstring (needle : List Char) : List Char → Bool
  | [] => needle.isEmpty
  | c :: rest => isPre needle (c :: rest) || containsSubstring needle rest

/-- The Python test: "party" in t.lower(). -/
def containsPartyCI (t : String) : Bool :=
  containsSubstring ("party".data) (t.data.map Char.toLower)

/-- The loop condition: li.get with key title is truthy (present and
non-empty) and its lowercase form contains "party". -/
def titleTruthyWithParty : Option String → Bool
  | none => false
  | some t => (!(t == "")) && containsPartyCI t

/-- What the loop body contributes for one selected anchor: the title when
the anchor qualifies, nothing otherwise. -/
def loopSelect (a : Anchor) : Option String :=
  if titleTruthyWithParty a.title then some (a.title.getD "") else none

/-- The append loop of lines 43-46 over the selected anchors. -/
def partyNamesLoop : List Anchor → List String → List String
  | [], acc => acc
  | a :: rest, acc =>
      if titleTruthyWithParty a.title then
        partyNamesLoop rest (acc ++ [a.title.getD ""])
      else partyNamesLoop rest acc

/-- scrape_party_info on a fetched page: select the anchors inside list
items, collect qualifying titles in document order, return the first 5. -/
def scrape_party_names (anchors : List Anchor) : List String :=
  (partyNamesLoop (anchors.filter (fun a => a.inListItem)) []).take 5

/-- The qualifying predicate of the claim: the anchor is nested in a list
item, has a title attribute, and the title contains the case-insensitive
substring "party". -/
def anchorQualifies (a : Anchor) : Bool :=
  a.inListItem &&
    (match a.title with
     | some t => containsPartyCI t
     | none => false)

/-- Qualifying anchor titles in document order. -/
def qualifyingTitles (anchors : List Anchor) : List String :=
  (anchors.filter anchorQualifies).filterMap Anchor.title

/-! ## Evaluation loop (main.py lines 51-82)

The external text-generation call is an oracle from the built prompt to
either a completion or a raised exception; the loop performs the calls in
list order, fills both dictionaries for each party, and propagates the
first exception out of evaluate_parties, producing no return value. -/

/-- The per-party user prompt of lines 56-62. -/
def mkPrompt (party country : String) : String :=
  "\n        Analyze the political party \x27" ++ party ++ "\x27 in " ++ country ++
    ":\n        - Current promises\n        - Past performance\n        - Predict living conditions impact (salary, cost of living, happiness index)\n        - Give a score (0–20) and justify with real sources if available\n        "

/-- Python dict assignment d[k] = v: update the existing entry in place,
else append the new entry. -/
def dictInsert {α : Type} : List (String × α) → String → α → List (String × α)
  | [], k, v => [(k, v)]
  | (k0, v0) :: rest, k, v =>
      if k0 == k then (k0, v) :: rest else (k0, v0) :: dictInsert rest k v

/-- Effect of a dict assignment on the key list alone: keep the keys when
the key is already bound, else append it. -/
def keyAdd (ks : List String) (k : String) : List String :=
  match ks with
  | [] => [k]
  | k0 :: rest => if k0 == k then k0 :: rest else k0 :: keyAdd rest k

/-- The for loop of evaluate_parties, carrying the two dictionaries. -/
def evalLoop (llm : String → Except String String) (country : String) :
    List String → List (String × String) → List (String × Option Int) →
    Except String (List (String × String) × List (String × Option Int))
  | [], analysis, scores => Except.ok (analysis, scores)
  | party :: rest, analysis, scores =>
      match llm (mkPrompt party country) with
      | Except.error e => Except.error e
      | Except.ok content =>
          evalLoop llm country rest (dictInsert analysis party content)
            (dictInsert scores party (extract_score content.data))

/-- evaluate_parties: run the loop from two empty dictionaries. -/
def evaluate_parties (llm : String → Except String String)
    (parties : List String) (country : String) :
    Except String (List (String × String) × List (String × Option Int)) :=
  evalLoop llm country parties [] []

/-! ## Chart rendering decision (main.py lines 122-136) -/

/-- What the chart section of main displays. -/
inductive ChartOutcome where
  | chart (bars : List (String × Int))
  | warning
  deriving DecidableEq

/-- The dict comprehension valid_scores: entries whose value is not None. -/
def valid_scores (scores : List (String × Option Int)) : List (String × Int) :=
  scores.filterMap (fun kv =>
    match kv.2 with
    | some v => some (kv.1, v)
    | none => none)

/-- The branch of lines 126-136: bar chart over valid_scores when that dict
is truthy (non-empty), else the warning. -/
def render_chart (scores : List (String × Option Int)) : ChartOutcome :=
  if valid_scores scores = [] then ChartOutcome.warning
  else ChartOutcome.chart (valid_scores scores)

/-! ## The scrape step of the Analyze action (main.py lines 107-115)

requests.get either raises (network error) or returns a response with some
status code and body; the handler calls scrape_party_info with no
try-except and scrape_party_info never consults response.status_code, so a
raised exception propagates uncaught out of the handler while any returned
response, whatever its status, flows on to evaluate_parties. -/

/-- Outcome of the requests.get call. -/
inductive FetchOutcome where
  | success (status : Nat) (anchors : List Anchor)
  | netError
  deriving DecidableEq

/-- What the Analyze handler does after the scrape. -/
inductive ActionResult where
  | uncaughtException
  | proceeded (parties : List String)
  deriving DecidableEq

/-- The scrape step of the handler: an exception from requests.get
propagates uncaught; otherwise the parsed party list is passed on to the
evaluation step, with the HTTP status never inspected. -/
def analyze_scrape_step (fetch : FetchOutcome) : ActionResult :=
  match fetch with
  | FetchOutcome.netError => ActionResult.uncaughtException
  | FetchOutcome.success _ anchors => ActionResult.proceeded (scrape_party_names anchors)

example : extract_score ("score: 27".data) = some 20 := by decide
example : extract_score ("score: -5".data) = some 5 := by decide
example : extract_score ("no number here".data) = none := by decide
example : extract_score ("score\n5".data) = none := by decide
example : extract_score ("the SCORE is 14 today".data) = some 14 := by decide
example : scrape_url "South Korea" =
    "https://en.wikipedia.org/wiki/List_of_political_parties_in_South_Korea" := by decide
example : scrape_url "United States" =
    "https://en.wikipedia.org/wiki/List_of_political_parties_in_the_United_States" := by decide

theorem hasDigitBeforeNewline_cons (c : Char) (m : List Char) :
    hasDigitBeforeNewline (c :: m) ↔
      c.isDigit = true ∨ (c ≠ '\n' ∧ hasDigitBeforeNewline m) := by
  constructor
  · rintro ⟨pre, d, suf, heq, hd, hpre⟩
    cases pre with
    | nil =>
        simp only [List.nil_append, List.cons.injEq] at heq
        exact Or.inl (by rw [heq.1]; exact hd)
    | cons p ps =>
        simp only [List.cons_append, List.cons.injEq] at heq
        refine Or.inr ⟨?_, ps, d, suf, heq.2, hd, ?_⟩
        · rw [heq.1]
          exact hpre p (by simp)
        · intro x hx
          exact hpre x (by simp [hx])
  · rintro (hd | ⟨hne, pre, d, suf, heq, hdd, hpre⟩)
    · exact ⟨[], c, m, rfl, hd, by simp⟩
    · refine ⟨c :: pre, d, suf, by simp [heq], hdd, ?_⟩
      intro x hx
      rcases List.mem_cons.mp hx with h | h
      · rw [h]; exact hne
      · exact hpre x h

theorem findDigitsNoNewline_isSome (m : List Char) :
    (findDigitsNoNewline m).isSome = true ↔ hasDigitBeforeNewline m := by
  induction m with
  | nil =>
      constructor
      · intro h
        simp [findDigitsNoNewline] at h
      · rintro ⟨pre, d, suf, heq, _, _⟩
        exact absurd heq (by simp)
  | cons c rest ih =>
      rw [hasDigitBeforeNewline_cons]
      by_cases hd : c.isDigit = true
      · rw [show findDigitsNoNewline (c :: rest) = some (matchedNumber c rest) from by
          conv_lhs => unfold findDigitsNoNewline
          rw [if_pos hd]]
        simp [hd]
      · by_cases hnl : c = '\n'
        · rw [show findDigitsNoNewline (c :: rest) = none from by
            conv_lhs => unfold findDigitsNoNewline
            rw [if_neg hd, if_pos hnl]]
          simp [hd, hnl]
        · rw [show findDigitsNoNewline (c :: rest) = findDigitsNoNewline rest from by
            conv_lhs => unfold findDigitsNoNewline
            rw [if_neg hd, if_neg hnl]]
          simp [hd, hnl, ih]

theorem scoreMatchNoNewline_cons (c : Char) (m : List Char) :
    scoreMatchNoNewline (c :: m) ↔
      (startsWithScore (c :: m) = true ∧ hasDigitBeforeNewline (List.drop 5 (c :: m)))
        ∨ scoreMatchNoNewline m := by
  constructor
  · rintro ⟨pre, suf, heq, hs, hdig⟩
    cases pre with
    | nil =>
        simp only [List.nil_append] at heq
        subst heq
        exact Or.inl ⟨hs, hdig⟩
    | cons p ps =>
        simp only [List.cons_append, List.cons.injEq] at heq
        exact Or.inr ⟨ps, suf, heq.2, hs, hdig⟩
  · rintro (⟨hs, hdig⟩ | ⟨pre, suf, heq, hs, hdig⟩)
    · exact ⟨[], c :: m, rfl, hs, hdig⟩
    · exact ⟨c :: pre, suf, by simp [heq], hs, hdig⟩

theorem searchScore_isSome (l : List Char) :
    (searchScore l).isSome = true ↔ scoreMatchNoNewline l := by
  induction l with
  | nil =>
      constructor
      · intro h
        simp [searchScore] at h
      · rintro ⟨pre, suf, heq, hs, _⟩
        rcases List.append_eq_nil.mp heq.symm with ⟨h1, h2⟩
        subst h2
        exact absurd hs (by decide)
  | cons c rest ih =>
      rw [scoreMatchNoNewline_cons]
      have hdrop : List.drop 5 (c :: rest) = List.drop 4 rest := rfl
      by_cases hs : startsWithScore (c :: rest) = true
      · cases hf : findDigitsNoNewline (List.drop 4 rest) with
        | some n =>
            rw [show searchScore (c :: rest) = some n from by
              conv_lhs => unfold searchScore
              rw [if_pos hs, hf]]
            have hdig : hasDigitBeforeNewline (List.drop 4 rest) :=
              (findDigitsNoNewline_isSome _).mp (by rw [hf]; rfl)
            simp [hs, hdrop, hdig]
        | none =>
            rw [show searchScore (c :: rest) = searchScore rest from by
              conv_lhs => unfold searchScore
              rw [if_pos hs, hf]]
            have hnod : ¬ hasDigitBeforeNewline (List.drop 4 rest) := by
              intro hcon
              have hsome := (findDigitsNoNewline_isSome _).mpr hcon
              rw [hf] at hsome
              cases hsome
            rw [ih]
            simp [hdrop, hnod]
      · rw [show searchScore (c :: rest) = searchScore rest from by
          conv_lhs => unfold searchScore
          rw [if_neg hs]]
        rw [ih]
        simp [hs]

theorem containsScoreCI_eq_true (l : List Char) :
    containsScoreCI l = true ↔
      ∃ pre suf, l = pre ++ suf ∧ startsWithScore suf = true := by
  induction l with
  | nil =>
      constructor
      · intro h
        simp [containsScoreCI] at h
      · rintro ⟨pre, suf, heq, hs⟩
        rcases List.append_eq_nil.mp heq.symm with ⟨h1, h2⟩
        subst h2
        exact absurd hs (by decide)
  | cons c rest ih =>
      constructor
      · intro h
        simp only [containsScoreCI, Bool.or_eq_true] at h
        rcases h with h1 | h2
        · exact ⟨[], c :: rest, rfl, h1⟩
        · rcases ih.mp h2 with ⟨pre, suf, heq, hs⟩
          exact ⟨c :: pre, suf, by simp [heq], hs⟩
      · rintro ⟨pre, suf, heq, hs⟩
        cases pre with
        | nil =>
            simp only [List.nil_append] at heq
            subst heq
            simp [containsScoreCI, hs]
        | cons p ps =>
            simp only [List.cons_append, List.cons.injEq] at heq
            have hrest : containsScoreCI rest = true := ih.mpr ⟨ps, suf, heq.2, hs⟩
            simp [containsScoreCI, hrest]

theorem extract_score_isSome (l : List Char) :
    (extract_score l).isSome = (searchScore l).isSome := by
  cases h : searchScore l <;> simp [extract_score, h]

theorem extract_score_isSome_iff (l : List Char) :
    (extract_score l).isSome = true ↔ scoreMatchNoNewline l := by
  rw [extract_score_isSome]
  exact searchScore_isSome l

theorem extract_score_none_of_no_score (l : List Char)
    (h : containsScoreCI l = false) : extract_score l = none := by
  have hnot : ¬ scoreMatchNoNewline l := by
    rintro ⟨pre, suf, heq, hs, _⟩
    have htrue : containsScoreCI l = true :=
      (containsScoreCI_eq_true l).mpr ⟨pre, suf, heq, hs⟩
    rw [h] at htrue
    cases htrue
  have h2 : ¬ (extract_score l).isSome = true := fun hcon =>
    hnot ((extract_score_isSome_iff l).mp hcon)
  cases hc : extract_score l with
  | none => rfl
  | some v => exact absurd (by rw [hc]; rfl) h2

/-- C1: counterexample. The text "score" newline "5" contains a
case-insensitive occurrence of "score" followed, with arbitrary intervening
characters, by a 1-digit number, so under the claim the score would be
present; the source regex dot does not cross the newline, and the score is
recorded as absent. -/
theorem c1_counterexample :
    scoreMatchArbitrary ("score\n5".data) ∧ extract_score ("score\n5".data) = none := by
  constructor
  · exact ⟨[], "score\n5".data, rfl, by decide, ['\n'], '5', [], by decide, by decide⟩
  · decide

/-- C1 (amended): the extracted score is present exactly when the text has
a case-insensitive occurrence of "score" followed, with arbitrary
intervening NON-NEWLINE characters, by a digit; when the regex search
yields the number n, the stored score is n clamped into the interval
0 to 20; and when the text contains no case-insensitive occurrence of
"score" at all, the score is recorded as absent. -/
theorem c1_score_extraction (l : List Char) :
    ((extract_score l).isSome = true ↔ scoreMatchNoNewline l)
    ∧ (∀ n, searchScore l = some n → extract_score l = some (clampScore (n : Int)))
    ∧ (containsScoreCI l = false → extract_score l = none) := by
  refine ⟨extract_score_isSome_iff l, ?_, extract_score_none_of_no_score l⟩
  intro n hn
  simp [extract_score, hn]

/-- C1: witness for the amended theorem at a text with no occurrence of
"score". -/
theorem c1_witness : extract_score ("hello".data) = none :=
  (c1_score_extraction ("hello".data)).2.2 (by decide)

/-- C2: the import statements of main.py never bind the name os, so for
every value held by the secrets store and every environment, running the
module prelude stops at line 15 with a NameError on os; in particular the
value read from the secrets store is never used and no client is built. -/
theorem c2_module_init_name_error :
    importedNames.contains "os" = false
    ∧ ∀ (secretsKey : String) (env : String → Option String),
        moduleInit secretsKey env = InitOutcome.nameError "os" :=
  ⟨by decide, fun _ _ => rfl⟩

/-- C3: every stored score that the regex produces lies between 0 and 20;
the text "score: 27" stores the clamped value 20; and the clamp expression
of line 78 sends every negative input to 0. -/
theorem c3_clamped_range :
    (∀ (l : List Char) (v : Int), extract_score l = some v → 0 ≤ v ∧ v ≤ 20)
    ∧ extract_score ("score: 27".data) = some 20
    ∧ (∀ s : Int, s < 0 → clampScore s = 0) := by
  refine ⟨?_, by decide, ?_⟩
  · intro l v h
    unfold extract_score at h
    cases hs : searchScore l with
    | none => rw [hs] at h; cases h
    | some n =>
        rw [hs] at h
        have hv : clampScore (n : Int) = v := by
          injection h
        rw [← hv]
        unfold clampScore
        exact ⟨le_min (le_max_right _ _) (by norm_num), min_le_right _ _⟩
  · intro s hlt
    unfold clampScore
    rw [max_eq_right (le_of_lt hlt), min_eq_left (by norm_num : (0 : Int) ≤ 20)]

/-- C3: witness combining the two hypotheses of the theorem at the inputs
"score: 27" and the negative raw value -5. -/
theorem c3_witness : (0 ≤ (20 : Int) ∧ (20 : Int) ≤ 20) ∧ clampScore (-5) = 0 :=
  ⟨c3_clamped_range.1 ("score: 27".data) 20 (by decide),
   c3_clamped_range.2.2 (-5) (by decide)⟩

/-- C4: counterexample. On the text "score: -5" the lazy dot-star consumes
the colon, the space and the minus sign and the digit pattern matches 5, so
the score is not recorded as absent, contrary to the claim. -/
theorem c4_counterexample : extract_score ("score: -5".data) ≠ none := by
  decide

/-- C4 (amended): on the text "score: -5" the digit pattern matches the
digit 5 (the minus sign is consumed by the intervening-characters part of
the regex), and the score is recorded as present with value 5. -/
theorem c4_negative_score_matched : extract_score ("score: -5".data) = some 5 := by
  decide

/-- C5: the scrape URL is the fixed template with the country substituted
after replacing spaces with underscores and no other transformation, except
the three exception-table countries, remapped before substitution. -/
theorem c5_scrape_url :
    (∀ c : String, c ≠ "United States" → c ≠ "United Kingdom" → c ≠ "Philippines" →
        scrape_url c = baseUrl ++ underscoreSpaces c)
    ∧ scrape_url "United States" = baseUrl ++ "the_United_States"
    ∧ scrape_url "United Kingdom" = baseUrl ++ "the_United_Kingdom"
    ∧ scrape_url "Philippines" = baseUrl ++ "the_Philippines" := by
  refine ⟨?_, by decide, by decide, by decide⟩
  intro c h1 h2 h3
  have hb1 : (c == "United States") = false := beq_eq_false_iff_ne.mpr h1
  have hb2 : (c == "United Kingdom") = false := beq_eq_false_iff_ne.mpr h2
  have hb3 : (c == "Philippines") = false := beq_eq_false_iff_ne.mpr h3
  simp [scrape_url, country_map, List.lookup, hb1, hb2, hb3]

/-- C5: witness at a country outside the exception table. -/
theorem c5_witness : scrape_url "South Korea" = baseUrl ++ underscoreSpaces "South Korea" :=
  c5_scrape_url.1 "South Korea" (by decide) (by decide) (by decide)

theorem partyNamesLoop_eq (l : List Anchor) (acc : List String) :
    partyNamesLoop l acc = acc ++ l.filterMap loopSelect := by
  induction l generalizing acc with
  | nil => simp [partyNamesLoop]
  | cons a rest ih =>
      by_cases h : titleTruthyWithParty a.title = true
      · rw [show partyNamesLoop (a :: rest) acc = partyNamesLoop rest (acc ++ [a.title.getD ""]) from by
          conv_lhs => unfold partyNamesLoop
          rw [if_pos h]]
        rw [ih, List.filterMap_cons_some
          (show loopSelect a = some (a.title.getD "") from by simp [loopSelect, h])]
        simp
      · rw [show partyNamesLoop (a :: rest) acc = partyNamesLoop rest acc from by
          conv_lhs => unfold partyNamesLoop
          rw [if_neg h]]
        rw [ih, List.filterMap_cons_none
          (show loopSelect a = none from by simp [loopSelect, h])]

theorem qualifyingTitles_eq (anchors : List Anchor) :
    (anchors.filter (fun a => a.inListItem)).filterMap loopSelect
      = qualifyingTitles anchors := by
  unfold qualifyingTitles
  induction anchors with
  | nil => rfl
  | cons a rest ih =>
      obtain ⟨inLi, ti⟩ := a
      cases inLi with
      | false =>
          rw [List.filter_cons_of_neg (by simp),
            List.filter_cons_of_neg (by simp [anchorQualifies])]
          exact ih
      | true =>
          rw [List.filter_cons_of_pos (by simp)]
          cases ti with
          | none =>
              rw [List.filterMap_cons_none
                  (show loopSelect (Anchor.mk true none) = none from rfl),
                List.filter_cons_of_neg (by simp [anchorQualifies])]
              exact ih
          | some t =>
              by_cases hcp : containsPartyCI t = true
              · have hne : (t == "") = false := by
                  by_cases he : t = ""
                  · rw [he] at hcp
                    exact absurd hcp (by decide)
                  · exact beq_eq_false_iff_ne.mpr he
                have hsel : loopSelect (Anchor.mk true (some t)) = some t := by
                  simp [loopSelect, titleTruthyWithParty, hne, hcp]
                have hti : Anchor.title (Anchor.mk true (some t)) = some t := rfl
                rw [List.filterMap_cons_some hsel,
                  List.filter_cons_of_pos (by simp [anchorQualifies, hcp]),
                  List.filterMap_cons_some hti, ih]
              · have hsel : loopSelect (Anchor.mk true (some t)) = none := by
                  simp [loopSelect, titleTruthyWithParty, hcp]
                rw [List.filterMap_cons_none hsel,
                  List.filter_cons_of_neg (by simp [anchorQualifies, hcp])]
                exact ih

/-- C6: the party list is exactly the first 5 qualifying anchor titles in
document order (anchor selected inside a list item, title attribute truthy,
title containing "party" case-insensitively); it never exceeds 5 entries,
and when at most 5 anchors qualify it is the whole qualifying list. -/
theorem c6_party_list (anchors : List Anchor) :
    scrape_party_names anchors = (qualifyingTitles anchors).take 5
    ∧ (scrape_party_names anchors).length ≤ 5
    ∧ ((qualifyingTitles anchors).length ≤ 5 →
        scrape_party_names anchors = qualifyingTitles anchors) := by
  have hmain : scrape_party_names anchors = (qualifyingTitles anchors).take 5 := by
    unfold scrape_party_names
    rw [partyNamesLoop_eq, List.nil_append, qualifyingTitles_eq]
  refine ⟨hmain, ?_, ?_⟩
  · rw [hmain, List.length_take]
    exact min_le_left _ _
  · intro hle
    rw [hmain]
    exact List.take_of_length_le hle

/-- C6: witness at a one-anchor page with a qualifying title. -/
theorem c6_witness :
    scrape_party_names [Anchor.mk true (some "Liberal Party of Canada")]
      = qualifyingTitles [Anchor.mk true (some "Liberal Party of Canada")] :=
  (c6_party_list _).2.2 (by decide)

/-- C7: what the code does at the failing input of the claim. A fetch that
returns HTTP status 404 with a body holding no qualifying anchor is not
caught and not reported: the handler ignores the status and proceeds to the
evaluation step with the parsed (empty) party list; the status argument is
never consulted for any response. -/
theorem c7_fetch_failure_unhandled :
    analyze_scrape_step (FetchOutcome.success 404 []) = ActionResult.proceeded []
    ∧ ∀ (status : Nat) (anchors : List Anchor),
        analyze_scrape_step (FetchOutcome.success status anchors)
          = ActionResult.proceeded (scrape_party_names anchors) :=
  ⟨rfl, fun _ _ => rfl⟩

theorem evalLoop_error (llm : String → Except String String) (country : String)
    (pre : List String) :
    ∀ (p : String) (post : List String) (e : String)
      (analysis : List (String × String)) (scores : List (String × Option Int)),
      (∀ q ∈ pre, ∃ r, llm (mkPrompt q country) = Except.ok r) →
      llm (mkPrompt p country) = Except.error e →
      evalLoop llm country (pre ++ p :: post) analysis scores = Except.error e := by
  induction pre with
  | nil =>
      intro p post e analysis scores _ herr
      simp only [List.nil_append]
      conv_lhs => unfold evalLoop
      rw [herr]
  | cons q rest ih =>
      intro p post e analysis scores hok herr
      obtain ⟨r, hr⟩ := hok q (List.mem_cons_self q rest)
      simp only [List.cons_append]
      conv_lhs => unfold evalLoop
      rw [hr]
      exact ih p post e _ _ (fun q2 hq2 => hok q2 (List.mem_cons_of_mem q hq2)) herr

/-- C8: when every call before some party p succeeds and the call for p
raises, evaluate_parties propagates that first exception: it returns the
error and no pair of mappings at all, whatever comes after p. -/
theorem c8_abort_on_first_error
    (llm : String → Except String String) (country : String)
    (pre : List String) (p : String) (post : List String) (e : String)
    (hok : ∀ q ∈ pre, ∃ r, llm (mkPrompt q country) = Except.ok r)
    (herr : llm (mkPrompt p country) = Except.error e) :
    evaluate_parties llm (pre ++ p :: post) country = Except.error e := by
  unfold evaluate_parties
  exact evalLoop_error llm country pre p post e [] [] hok herr

/-- C8: witness with an oracle that raises on the first party of two. -/
theorem c8_witness :
    evaluate_parties (fun _ => Except.error "boom") ["A", "B"] "Canada"
      = Except.error "boom" :=
  c8_abort_on_first_error (fun _ => Except.error "boom") "Canada" [] "A" ["B"] "boom"
    (by simp) rfl

theorem valid_scores_cons_none (k : String) (rest : List (String × Option Int)) :
    valid_scores ((k, none) :: rest) = valid_scores rest := rfl

theorem valid_scores_cons_some (k : String) (n : Int) (rest : List (String × Option Int)) :
    valid_scores ((k, some n) :: rest) = (k, n) :: valid_scores rest := rfl

theorem valid_scores_map_fst (scores : List (String × Option Int)) :
    (valid_scores scores).map Prod.fst
      = (scores.filter (fun kv => kv.2.isSome)).map Prod.fst := by
  induction scores with
  | nil => rfl
  | cons kv rest ih =>
      obtain ⟨k, v⟩ := kv
      cases v with
      | none => simpa [valid_scores_cons_none, List.filter_cons] using ih
      | some n => simp [valid_scores_cons_some, List.filter_cons, ih]

theorem valid_scores_eq_nil_iff (scores : List (String × Option Int)) :
    valid_scores scores = [] ↔ ∀ kv ∈ scores, kv.2 = none := by
  induction scores with
  | nil => simp [valid_scores]
  | cons kv rest ih =>
      obtain ⟨k, v⟩ := kv
      cases v with
      | none => simp [valid_scores_cons_none, ih]
      | some n => simp [valid_scores_cons_some]

/-- C9: the bar chart is built from exactly the parties whose score is
present, in order; when at least one score is present the chart over
valid_scores is rendered, and when no score is present the warning replaces
the chart. -/
theorem c9_chart (scores : List (String × Option Int)) :
    ((valid_scores scores).map Prod.fst
        = (scores.filter (fun kv => kv.2.isSome)).map Prod.fst)
    ∧ ((∃ kv ∈ scores, kv.2 ≠ none) →
        render_chart scores = ChartOutcome.chart (valid_scores scores))
    ∧ ((∀ kv ∈ scores, kv.2 = none) → render_chart scores = ChartOutcome.warning) := by
  refine ⟨valid_scores_map_fst scores, ?_, ?_⟩
  · rintro ⟨kv, hmem, hne⟩
    have hnil : ¬ valid_scores scores = [] := by
      intro hcon
      exact hne (((valid_scores_eq_nil_iff scores).mp hcon) kv hmem)
    unfold render_chart
    rw [if_neg hnil]
  · intro hall
    unfold render_chart
    rw [if_pos ((valid_scores_eq_nil_iff scores).mpr hall)]

/-- C9: witness at a one-present-score mapping and at an all-absent
mapping. -/
theorem c9_witness :
    render_chart [("A", some 3)] = ChartOutcome.chart (valid_scores [("A", some 3)])
    ∧ render_chart [("B", (none : Option Int))] = ChartOutcome.warning :=
  ⟨(c9_chart _).2.1 (by decide), (c9_chart _).2.2 (by decide)⟩

theorem dictInsert_map_fst {α : Type} (d : List (String × α)) (k : String) (v : α) :
    (dictInsert d k v).map Prod.fst = keyAdd (d.map Prod.fst) k := by
  induction d with
  | nil => rfl
  | cons kv rest ih =>
      obtain ⟨k0, v0⟩ := kv
      by_cases h : (k0 == k) = true
      · simp [dictInsert, keyAdd, h]
      · simp [dictInsert, keyAdd, h, ih]

theorem evalLoop_keys (llm : String → Except String String) (country : String)
    (parties : List String) :
    ∀ (analysis : List (String × String)) (scores : List (String × Option Int))
      (ra : List (String × String)) (rs : List (String × Option Int)),
      analysis.map Prod.fst = scores.map Prod.fst →
      evalLoop llm country parties analysis scores = Except.ok (ra, rs) →
      ra.map Prod.fst = rs.map Prod.fst := by
  induction parties with
  | nil =>
      intro analysis scores ra rs hkeys hrun
      unfold evalLoop at hrun
      simp only [Except.ok.injEq, Prod.mk.injEq] at hrun
      rw [← hrun.1, ← hrun.2]
      exact hkeys
  | cons party rest ih =>
      intro analysis scores ra rs hkeys hrun
      unfold evalLoop at hrun
      cases hl : llm (mkPrompt party country) with
      | error e =>
          rw [hl] at hrun
          exact Except.noConfusion hrun
      | ok content =>
          rw [hl] at hrun
          exact ih _ _ ra rs
            (by rw [dictInsert_map_fst, dictInsert_map_fst, hkeys]) hrun

/-- C10: whenever evaluate_parties returns, the analysis mapping and the
score mapping carry exactly the same keys in the same order: each party
gets an analysis entry exactly when it gets a (present or absent) score
entry. -/
theorem c10_same_keys (llm : String → Except String String)
    (parties : List String) (country : String)
    (ra : List (String × String)) (rs : List (String × Option Int))
    (h : evaluate_parties llm parties country = Except.ok (ra, rs)) :
    ra.map Prod.fst = rs.map Prod.fst :=
  evalLoop_keys llm country parties [] [] ra rs rfl h

/-- C10: witness with an always-succeeding oracle over two parties. -/
theorem c10_witness :
    ([("A", "score 5"), ("B", "score 5")] : List (String × String)).map Prod.fst
      = ([("A", some 5), ("B", some 5)] : List (String × Option Int)).map Prod.fst :=
  c10_same_keys (fun _ => Except.ok "score 5") ["A", "B"] "Canada"
    [("A", "score 5"), ("B", "score 5")] [("A", some 5), ("B", some 5)] rfl
